import Mathlib

/-!
Verification development for `celery_prometheus_exporter.py`.

The embedding below follows the Python source closely:

* `MonitorThread` (the event processor) becomes the pure functions
  `_process_event`, `_observe_latency`, `_observe_runtime`, `_collect_tasks`,
  `_incr_ready_task` and `_collect_unready_tasks` over an explicit
  `MonitorState` (store plus the two remembered label-key sets) and a
  `Metrics` record (the Prometheus gauge and histogram families).
* Prometheus gauge families are association lists from label tuples to
  values, mirroring the `labels()` dictionary of `prometheus_client`
  (`labels()` creates a missing child); histograms are the list of observed
  samples.
* `BrokerQueueMonitorThread` becomes `collect_metrics`,
  `_collect_queue_lengths`, `_collect_queue_tasks` and
  `_zero_not_exist_tasks` over a `Broker` record holding the queue item
  lists (each raw payload is represented by the task name it decodes to, or
  `none` when it fails to decode) and the persisted `{queue}_tasks` sets.
* A Python exception that the surrounding code does not catch is a
  `Except.error ()` / `some ()` result; caught exceptions (`KeyError` on the
  guarded lookups) are the corresponding no-op branches.
-/

/-- Task lifecycle states, from `celery.states`. -/
inductive CeleryState where
  | PENDING
  | RECEIVED
  | STARTED
  | SUCCESS
  | FAILURE
  | RETRY
  | REVOKED
  | REJECTED
  deriving DecidableEq

/-- `celery.states.READY_STATES`. -/
def READY_STATES : List CeleryState :=
  [CeleryState.SUCCESS, CeleryState.FAILURE, CeleryState.REVOKED]

/-- `celery.states.ALL_STATES`, as enumerated by `setup_metrics`. -/
def ALL_STATES : List CeleryState :=
  [CeleryState.PENDING, CeleryState.RECEIVED, CeleryState.STARTED,
   CeleryState.SUCCESS, CeleryState.FAILURE, CeleryState.RETRY,
   CeleryState.REVOKED]

/-- `celery.events.state.TASK_EVENT_TO_STATE`: the fixed kind-to-state table.
An absent key means the dictionary lookup raises `KeyError`. -/
def TASK_EVENT_TO_STATE : String → Option CeleryState
  | "sent" => some CeleryState.PENDING
  | "received" => some CeleryState.RECEIVED
  | "started" => some CeleryState.STARTED
  | "failed" => some CeleryState.FAILURE
  | "retried" => some CeleryState.RETRY
  | "succeeded" => some CeleryState.SUCCESS
  | "revoked" => some CeleryState.REVOKED
  | "rejected" => some CeleryState.REJECTED
  | _ => none

/-- `celery.events.group_from`: the part of the event type before the first
dash (`type.partition('-')[0]`). -/
def group_from (t : String) : String :=
  String.mk (t.data.takeWhile (fun c => c != '-'))

/-- `s[n:]` on a Python string. -/
def strDrop (t : String) (n : Nat) : String :=
  String.mk (t.data.drop n)

/-- Association-list get: first binding for the key, mirroring a Python
dict lookup. -/
def alistGet {α β : Type} [DecidableEq α] : List (α × β) → α → Option β
  | [], _ => none
  | (k, v) :: rest, k2 => if k = k2 then some v else alistGet rest k2

/-- Association-list set: replace the first binding in place, or append a new
binding, mirroring a Python dict assignment (insertion order preserved). -/
def alistSet {α β : Type} [DecidableEq α] : List (α × β) → α → β → List (α × β)
  | [], k, v => [(k, v)]
  | (k1, v1) :: rest, k, v =>
      if k1 = k then (k, v) :: rest else (k1, v1) :: alistSet rest k v

/-- Association-list removal of the first binding for a key. -/
def alistRemove {α β : Type} [DecidableEq α] : List (α × β) → α → List (α × β)
  | [], _ => []
  | (k1, v1) :: rest, k => if k1 = k then rest else (k1, v1) :: alistRemove rest k

/-- The value a Prometheus gauge child reports: its stored value, `0` for a
freshly created child. -/
def gaugeVal {α : Type} [DecidableEq α] (g : List (α × Int)) (k : α) : Int :=
  (alistGet g k).getD 0

/-- `labels(...).inc()`: create the child if needed and add one. -/
def gaugeInc {α : Type} [DecidableEq α] (g : List (α × Int)) (k : α) :
    List (α × Int) :=
  alistSet g k (gaugeVal g k + 1)

/-- A task event as consumed by `_process_event`: `type` is the full event
type (e.g. `task-started`); `uuid`, `runtime` and `name` are `none` when the
corresponding payload field is missing (a Python `KeyError` on access). -/
structure Event where
  type : String
  uuid : Option String
  timestamp : Int
  runtime : Option Int
  name : Option String
  deriving DecidableEq

/-- The per-task record kept by celery's `State`: last known name (possibly
still unknown), last recorded state, timestamp of the last applied event. -/
structure TaskRecord where
  name : Option String
  state : CeleryState
  timestamp : Int
  deriving DecidableEq

/-- The bounded task mapping `self._state.tasks` (entries oldest first). -/
structure TaskStore where
  capacity : Nat
  entries : List (String × TaskRecord)
  deriving DecidableEq

/-- Modelled from the spec: the Task State Store is celery's
`app.events.State` with its bounded kombu `LRUCache` task mapping, library
code that is not part of this repository's source tree.  Per spec section 3
it is a bounded mapping from task id to record: an update of an existing id
moves the record to the most-recent end, and inserting a new id at capacity
first evicts the least-recently-inserted/updated record. -/
def TaskStore.upsert (s : TaskStore) (id : String) (rec : TaskRecord) :
    TaskStore :=
  match alistGet s.entries id with
  | some _ => { s with entries := alistRemove s.entries id ++ [(id, rec)] }
  | none =>
      { s with entries :=
          (if s.capacity ≤ s.entries.length then s.entries.drop 1
           else s.entries) ++ [(id, rec)] }

/-- `self._state.tasks.pop(uuid)`: remove and return the record, `none` when
the id is absent (the Python call raises a caught `KeyError`). -/
def TaskStore.pop (s : TaskStore) (id : String) :
    Option (TaskRecord × TaskStore) :=
  match alistGet s.entries id with
  | none => none
  | some r => some (r, { s with entries := alistRemove s.entries id })

/-- Modelled from the spec: `self._state._event(evt)` of celery (external
library), as used on the unready branch of `_collect_tasks`: upsert the
record for the event's id with the resolved state, the event's timestamp,
and the event's name when the event carries one (otherwise the previously
known name).  An event without an id cannot be applied (celery raises
`KeyError` on the missing field). -/
def State_event (s : TaskStore) (evt : Event) (state : CeleryState) :
    Except Unit TaskStore :=
  match evt.uuid with
  | none => Except.error ()
  | some u =>
      let nm :=
        match evt.name with
        | some n => some n
        | none =>
            match alistGet s.entries u with
            | some r => r.name
            | none => none
      Except.ok (s.upsert u { name := nm, state := state, timestamp := evt.timestamp })

/-- The metric registry families touched by the monitor thread:
`TASKS`, `TASKS_NAME`, `LATENCY`, `TASKS_RUNTIME`, `WORKERS`.
`tasks_name` keys carry the name exactly as the code passes it
(`None` included, hence `Option String`). -/
structure Metrics where
  tasks : List (CeleryState × Int)
  tasks_name : List ((CeleryState × Option String) × Int)
  latency : List Int
  runtime : List (Option String × Int)
  workers : Int
  deriving DecidableEq

/-- The mutable state of `MonitorThread`: the task store and the two
remembered label-key sets `_known_states` and `_known_states_names`. -/
structure MonitorState where
  store : TaskStore
  known_states : List CeleryState
  known_states_names : List (CeleryState × String)
  deriving DecidableEq

/-- `MonitorThread._observe_latency`: both the `evt['uuid']` access and the
store lookup raise a caught `KeyError` (no-op); otherwise a latency sample is
observed only when the previous recorded state is exactly `RECEIVED`. -/
def _observe_latency (st : MonitorState) (m : Metrics) (evt : Event) :
    Metrics :=
  match evt.uuid with
  | none => m
  | some u =>
      match alistGet st.store.entries u with
      | none => m
      | some prev =>
          if prev.state = CeleryState.RECEIVED then
            { m with latency := m.latency ++ [evt.timestamp - prev.timestamp] }
          else m

/-- `MonitorThread._observe_runtime`: the guarded lookup failures are caught
(no-op), but `evt['runtime']` is accessed outside the `try` and raises when
the field is missing. -/
def _observe_runtime (st : MonitorState) (m : Metrics) (evt : Event) :
    Except Unit Metrics :=
  match evt.uuid with
  | none => Except.ok m
  | some u =>
      match alistGet st.store.entries u with
      | none => Except.ok m
      | some prev =>
          match evt.runtime with
          | none => Except.error ()
          | some r => Except.ok { m with runtime := m.runtime ++ [(prev.name, r)] }

/-- `MonitorThread._incr_ready_task`: always increment `TASKS{state}`; then
pop the record and increment `TASKS_NAME{state, record.name}`, with the
`KeyError` of a missing id or record caught (no-op). -/
def _incr_ready_task (st : MonitorState) (m : Metrics) (evt : Event)
    (state : CeleryState) : MonitorState × Metrics :=
  let m1 := { m with tasks := gaugeInc m.tasks state }
  match evt.uuid with
  | none => (st, m1)
  | some u =>
      match st.store.pop u with
      | none => (st, m1)
      | some (rec, store2) =>
          ({ st with store := store2 },
           { m1 with tasks_name := gaugeInc m1.tasks_name (state, rec.name) })

/-- Number of occurrences of an element in a list (`collections.Counter`). -/
def countEq {α : Type} [DecidableEq α] : List α → α → Nat
  | [], _ => 0
  | x :: rest, a => (if x = a then 1 else 0) + countEq rest a

/-- `set.update(...)`: add every element of the second list that is not yet
a member. -/
def insertNew {α : Type} [DecidableEq α] : List α → List α → List α
  | base, [] => base
  | base, x :: rest => insertNew (if x ∈ base then base else base ++ [x]) rest

/-- `MonitorThread._collect_unready_tasks`: recompute the distribution of
tracked records by state and by (state, truthy name), remember every
combination ever seen, and `set` each remembered combination to its current
count (including 0). -/
def _collect_unready_tasks (st : MonitorState) (m : Metrics) :
    MonitorState × Metrics :=
  let states := st.store.entries.map (fun p => p.2.state)
  let ks := insertNew st.known_states states
  let tasks2 := ks.foldl (fun g s => alistSet g s ((countEq states s : Nat) : Int)) m.tasks
  let pairs := st.store.entries.filterMap (fun p =>
      match p.2.name with
      | some n => if n = "" then none else some (p.2.state, n)
      | none => none)
  let kn := insertNew st.known_states_names pairs
  let tasks_name2 := kn.foldl
      (fun g sn => alistSet g (sn.1, some sn.2) ((countEq pairs sn : Nat) : Int))
      m.tasks_name
  ({ st with known_states := ks, known_states_names := kn },
   { m with tasks := tasks2, tasks_name := tasks_name2 })

/-- `MonitorThread._collect_tasks`: ready states go through
`_incr_ready_task`, unready events are applied to the store; either way the
unready distribution is then recomputed. -/
def _collect_tasks (st : MonitorState) (m : Metrics) (evt : Event)
    (state : CeleryState) : Except Unit (MonitorState × Metrics) :=
  if state ∈ READY_STATES then
    let p := _incr_ready_task st m evt state
    Except.ok (_collect_unready_tasks p.1 p.2)
  else
    match State_event st.store evt state with
    | Except.error e => Except.error e
    | Except.ok store2 =>
        Except.ok (_collect_unready_tasks { st with store := store2 } m)

/-- `MonitorThread._process_event`: non-task events are ignored; a task
event's kind is resolved through `TASK_EVENT_TO_STATE`, where an unknown
kind raises an uncaught `KeyError` (the `except` clause only catches
`AttributeError`, the Celery 3 fallback). -/
def _process_event (st : MonitorState) (m : Metrics) (evt : Event) :
    Except Unit (MonitorState × Metrics) :=
  if group_from evt.type = "task" then
    match TASK_EVENT_TO_STATE (strDrop evt.type 5) with
    | none => Except.error ()
    | some state =>
        match (if state = CeleryState.SUCCESS then
                 _observe_runtime st
                   (if state = CeleryState.STARTED then _observe_latency st m evt
                    else m) evt
               else
                 Except.ok (if state = CeleryState.STARTED then
                     _observe_latency st m evt
                   else m)) with
        | Except.error e => Except.error e
        | Except.ok m2 => _collect_tasks st m2 evt state
  else Except.ok (st, m)

/-- The semantic state an event resolves to, `none` for a non-task event or
an unknown task kind. -/
def resolveState (evt : Event) : Option CeleryState :=
  if group_from evt.type = "task" then TASK_EVENT_TO_STATE (strDrop evt.type 5)
  else none

/-- `setup_metrics(app)`: zero `WORKERS`; when the registered-task query
succeeds (`insp = some names`), set `TASKS` to 0 for every enumerated state
and `TASKS_NAME` to 0 for every state times registered name; when it fails
(`insp = none`), set every already-present child of both families to 0. -/
def setup_metrics (insp : Option (List String)) (m : Metrics) : Metrics :=
  let m1 := { m with workers := 0 }
  match insp with
  | none =>
      { m1 with tasks := m1.tasks.map (fun p => (p.1, (0 : Int))),
                tasks_name := m1.tasks_name.map (fun p => (p.1, (0 : Int))) }
  | some registered =>
      let names := insertNew [] registered
      { m1 with
        tasks := ALL_STATES.foldl (fun g s => alistSet g s 0) m1.tasks,
        tasks_name := ALL_STATES.foldl
          (fun g s => names.foldl (fun g2 n => alistSet g2 (s, some n) 0) g)
          m1.tasks_name }

/-- The monitor state `MonitorThread.__init__` starts from. -/
def initMonitor (cap : Nat) : MonitorState :=
  { store := { capacity := cap, entries := [] },
    known_states := [], known_states_names := [] }

/-- Registry at process start: no children, no samples. -/
def emptyMetrics : Metrics :=
  { tasks := [], tasks_name := [], latency := [], runtime := [], workers := 0 }

/-- A serial stream of events fed through `_process_event`.  An uncaught
exception aborts `recv.capture`; `_monitor` logs it and reconnects with the
same `self._state`, so the monitor state survives the error and processing
resumes with the next events. -/
def processEvents (st : MonitorState) (m : Metrics) :
    List Event → MonitorState × Metrics
  | [] => (st, m)
  | e :: rest =>
      match _process_event st m e with
      | Except.ok (st2, m2) => processEvents st2 m2 rest
      | Except.error _ => processEvents st m rest

/-- `BrokerQueueMonitorThread.BUILTIN_QUEUES`. -/
def BUILTIN_QUEUES : List String :=
  ["celery.pidbox", "reply.celery.pidbox", "celeryev"]

/-- The gauge families owned by the broker queue monitor:
`QUEUE_LENGTHS{queue}` and `QUEUE_TASKS{queue, name}`. -/
structure BrokerGauges where
  queue_lengths : List (String × Int)
  queue_tasks : List ((String × String) × Int)
  deriving DecidableEq

/-- The broker-side data read and written by one poll: the discovered queue
names, each queue's raw item list (an item is the task name its payload
decodes to, or `none` when `json.loads` / the `headers.task` access fails),
and the persisted `{queue}_tasks` seen-name sets. -/
structure Broker where
  queues : List String
  items : List (String × List (Option String))
  seen : List (String × List String)
  deriving DecidableEq

/-- `setdefault(name, 0)` followed by `+= 1`. -/
def bump (acc : List (String × Nat)) (n : String) : List (String × Nat) :=
  alistSet acc n ((alistGet acc n).getD 0 + 1)

/-- The per-name tally of decodable payloads (`task_counts`); undecodable
entries are skipped. -/
def countTasks (payloads : List (Option String)) : List (String × Nat) :=
  payloads.foldl (fun acc p =>
    match p with
    | none => acc
    | some n => bump acc n) []

/-- `BrokerQueueMonitorThread._collect_queue_lengths`: `llen` is the raw
item count of the queue list. -/
def _collect_queue_lengths (b : Broker) (g : BrokerGauges) (q : String) :
    BrokerGauges :=
  { g with queue_lengths :=
      alistSet g.queue_lengths q (((alistGet b.items q).getD []).length : Int) }

/-- `BrokerQueueMonitorThread._zero_not_exist_tasks`: zero every persisted
name absent from the current tally, then `sadd` the tally's names into the
persisted set.  Redis `SADD` requires at least one member: called with an
empty `existing_tasks` the server answers a `ResponseError`, which the
client raises (there is no try around it). -/
def _zero_not_exist_tasks (b : Broker) (g : BrokerGauges) (q : String)
    (existing : List (String × Nat)) : (Broker × BrokerGauges) × Option Unit :=
  let full := (alistGet b.seen q).getD []
  let qt2 := full.foldl (fun gg t =>
      if (alistGet existing t).isSome then gg else alistSet gg (q, t) 0)
    g.queue_tasks
  let g2 := { g with queue_tasks := qt2 }
  if existing.isEmpty then ((b, g2), some ())
  else
    (({ b with seen := alistSet b.seen q (insertNew full (existing.map Prod.fst)) }, g2),
     none)

/-- `BrokerQueueMonitorThread._collect_queue_tasks`: tally the decodable
payloads, set `QUEUE_TASKS{queue, name}` for every tallied name, then run
the zeroing pass. -/
def _collect_queue_tasks (b : Broker) (g : BrokerGauges) (q : String) :
    (Broker × BrokerGauges) × Option Unit :=
  let task_counts := countTasks ((alistGet b.items q).getD [])
  let qt2 := task_counts.foldl
      (fun gg kv => alistSet gg (q, kv.1) ((kv.2 : Nat) : Int)) g.queue_tasks
  _zero_not_exist_tasks b { g with queue_tasks := qt2 } q task_counts

/-- The second `for` loop of `collect_metrics`: non-concurrent iteration, so
the first uncaught exception aborts the remaining queues of the cycle. -/
def queueLoop (b : Broker) (g : BrokerGauges) :
    List String → (Broker × BrokerGauges) × Option Unit
  | [] => ((b, g), none)
  | q :: rest =>
      match _collect_queue_tasks b g q with
      | ((b2, g2), none) => queueLoop b2 g2 rest
      | ((b2, g2), some e) => ((b2, g2), some e)

/-- `BrokerQueueMonitorThread._get_task_queues`. -/
def _get_task_queues (queues : List String) : List String :=
  queues.filter (fun q => !(BUILTIN_QUEUES.contains q))

/-- `BrokerQueueMonitorThread.collect_metrics`: lengths for every discovered
queue, then per-task collection for every non-builtin queue. -/
def collect_metrics (b : Broker) (g : BrokerGauges) :
    (Broker × BrokerGauges) × Option Unit :=
  let g1 := b.queues.foldl (fun gg q => _collect_queue_lengths b gg q) g
  queueLoop b g1 (_get_task_queues b.queues)

/-- One iteration of `BrokerQueueMonitorThread.run`: any exception from
`collect_metrics` is caught and logged, and the loop sleeps until the next
interval with whatever state the cycle left behind. -/
def run_once (b : Broker) (g : BrokerGauges) : Broker × BrokerGauges :=
  (collect_metrics b g).1

/-- All tracked records are in unready states. -/
def unreadyEntries (l : List (String × TaskRecord)) : Prop :=
  ∀ p ∈ l, p.2.state ∉ READY_STATES

/-- Reachability invariant of the monitor state: the store only holds
unready records and `_known_states` only remembers unready states. -/
def MonInv (st : MonitorState) : Prop :=
  unreadyEntries st.store.entries ∧ ∀ s ∈ st.known_states, s ∉ READY_STATES

instance (l : List (String × TaskRecord)) : Decidable (unreadyEntries l) := by
  unfold unreadyEntries; infer_instance

instance (st : MonitorState) : Decidable (MonInv st) := by
  unfold MonInv; infer_instance

/-! ### Association-list and gauge lemmas -/

theorem alistGet_set_self {α β : Type} [DecidableEq α]
    (l : List (α × β)) (k : α) (v : β) :
    alistGet (alistSet l k v) k = some v := by
  induction l with
  | nil => simp [alistSet, alistGet]
  | cons p t ih =>
      obtain ⟨k1, v1⟩ := p
      by_cases hk : k1 = k
      · subst hk; simp [alistSet, alistGet]
      · simp [alistSet, alistGet, hk, ih]

theorem alistGet_set_ne {α β : Type} [DecidableEq α]
    (l : List (α × β)) (k k2 : α) (v : β) (h : k ≠ k2) :
    alistGet (alistSet l k v) k2 = alistGet l k2 := by
  induction l with
  | nil => simp [alistSet, alistGet, h]
  | cons p t ih =>
      obtain ⟨k1, v1⟩ := p
      by_cases hk : k1 = k
      · subst hk; simp [alistSet, alistGet, h]
      · simp [alistSet, alistGet, hk, ih]

theorem mem_of_mem_alistRemove {α β : Type} [DecidableEq α]
    (l : List (α × β)) (k : α) (p : α × β) (h : p ∈ alistRemove l k) : p ∈ l := by
  induction l with
  | nil => simp [alistRemove] at h
  | cons q t ih =>
      obtain ⟨k1, v1⟩ := q
      by_cases hk : k1 = k
      · subst hk
        simp [alistRemove] at h
        exact List.mem_cons_of_mem _ h
      · simp [alistRemove, hk] at h
        rcases h with h | h
        · simp [h]
        · exact List.mem_cons_of_mem _ (ih h)

theorem alistRemove_length {α β : Type} [DecidableEq α]
    (l : List (α × β)) (k : α) (v : β) (h : alistGet l k = some v) :
    (alistRemove l k).length + 1 = l.length := by
  induction l with
  | nil => simp [alistGet] at h
  | cons q t ih =>
      obtain ⟨k1, v1⟩ := q
      by_cases hk : k1 = k
      · subst hk; simp [alistRemove]
      · have hk2 : ¬k1 = k := hk
        simp [alistGet, hk2] at h
        simp [alistRemove, hk2, ih h]

theorem alistGet_eq_none_iff {α β : Type} [DecidableEq α]
    (l : List (α × β)) (k : α) :
    alistGet l k = none ↔ ∀ v : β, (k, v) ∉ l := by
  induction l with
  | nil => simp [alistGet]
  | cons q t ih =>
      obtain ⟨k1, v1⟩ := q
      by_cases hk : k1 = k
      · subst hk
        simp only [alistGet, if_pos rfl]
        constructor
        · intro h; simp at h
        · intro h; exact absurd (List.mem_cons_self _ _) (h v1)
      · simp only [alistGet, if_neg hk]
        rw [ih]
        constructor
        · intro h v hv
          rcases List.mem_cons.1 hv with he | ht
          · exact hk (congrArg Prod.fst he).symm
          · exact h v ht
        · intro h v hv
          exact h v (List.mem_cons_of_mem _ hv)

theorem alistGet_remove_none {α β : Type} [DecidableEq α]
    (l : List (α × β)) (k : α) (hnd : (l.map Prod.fst).Nodup) :
    alistGet (alistRemove l k) k = none := by
  induction l with
  | nil => simp [alistRemove, alistGet]
  | cons q t ih =>
      obtain ⟨k1, v1⟩ := q
      rw [List.map_cons, List.nodup_cons] at hnd
      by_cases hk : k1 = k
      · subst hk
        simp only [alistRemove, if_pos rfl]
        refine (alistGet_eq_none_iff t k1).2 ?_
        intro v hv
        exact hnd.1 (List.mem_map.2 ⟨(k1, v), hv, rfl⟩)
      · simp [alistRemove, alistGet, hk, ih hnd.2]

theorem alistGet_append_single {α β : Type} [DecidableEq α]
    (l : List (α × β)) (k : α) (v : β) (h : alistGet l k = none) :
    alistGet (l ++ [(k, v)]) k = some v := by
  induction l with
  | nil => simp [alistGet]
  | cons q t ih =>
      obtain ⟨k1, v1⟩ := q
      by_cases hk : k1 = k
      · subst hk; simp [alistGet] at h
      · simp [alistGet, hk] at h ⊢
        exact ih h

theorem alistGet_drop_one_none {α β : Type} [DecidableEq α]
    (l : List (α × β)) (k : α) (h : alistGet l k = none) :
    alistGet (l.drop 1) k = none := by
  cases l with
  | nil => simp [alistGet]
  | cons q t =>
      obtain ⟨k1, v1⟩ := q
      by_cases hk : k1 = k
      · subst hk; simp [alistGet] at h
      · simp [alistGet, hk] at h
        simpa using h

theorem gaugeVal_set_self {α : Type} [DecidableEq α]
    (g : List (α × Int)) (k : α) (v : Int) :
    gaugeVal (alistSet g k v) k = v := by
  simp [gaugeVal, alistGet_set_self]

theorem gaugeVal_set_ne {α : Type} [DecidableEq α]
    (g : List (α × Int)) (k k2 : α) (v : Int) (h : k ≠ k2) :
    gaugeVal (alistSet g k v) k2 = gaugeVal g k2 := by
  simp [gaugeVal, alistGet_set_ne g k k2 v h]

theorem gaugeVal_inc_self {α : Type} [DecidableEq α]
    (g : List (α × Int)) (k : α) :
    gaugeVal (gaugeInc g k) k = gaugeVal g k + 1 := by
  simp [gaugeInc, gaugeVal_set_self]

theorem gaugeVal_inc_ne {α : Type} [DecidableEq α]
    (g : List (α × Int)) (k k2 : α) (h : k ≠ k2) :
    gaugeVal (gaugeInc g k) k2 = gaugeVal g k2 := by
  simp [gaugeInc, gaugeVal_set_ne g k k2 _ h]

theorem mem_insertNew_iff {α : Type} [DecidableEq α]
    (xs : List α) : ∀ (base : List α) (x : α),
    x ∈ insertNew base xs ↔ x ∈ base ∨ x ∈ xs := by
  induction xs with
  | nil => intro base x; simp [insertNew]
  | cons y t ih =>
      intro base x
      by_cases hy : y ∈ base
      · simp [insertNew, hy, ih]
        constructor
        · rintro (h | h)
          · exact Or.inl h
          · exact Or.inr (Or.inr h)
        · rintro (h | h | h)
          · exact Or.inl h
          · subst h; exact Or.inl hy
          · exact Or.inr h
      · simp [insertNew, hy, ih, List.mem_append]
        tauto

/-! ### Fold lemmas for gauge-family updates -/

theorem foldl_alistSet_untouched {α γ : Type} [DecidableEq α]
    (L : List γ) (f : γ → α) (v : γ → Int) :
    ∀ (g : List (α × Int)) (k : α), (∀ x ∈ L, f x ≠ k) →
    gaugeVal (L.foldl (fun gg x => alistSet gg (f x) (v x)) g) k = gaugeVal g k := by
  induction L with
  | nil => intro g k _; rfl
  | cons y t ih =>
      intro g k h
      simp only [List.foldl_cons]
      rw [ih (alistSet g (f y) (v y)) k (fun x hx => h x (List.mem_cons_of_mem _ hx))]
      exact gaugeVal_set_ne _ _ _ _ (h y (List.mem_cons_self _ _))

theorem foldl_zeroSet_cases {α γ : Type} [DecidableEq α]
    (L : List γ) (f : γ → α) :
    ∀ (g : List (α × Int)) (k : α),
    gaugeVal (L.foldl (fun gg x => alistSet gg (f x) 0) g) k = gaugeVal g k ∨
    gaugeVal (L.foldl (fun gg x => alistSet gg (f x) 0) g) k = 0 := by
  induction L with
  | nil => intro g k; left; rfl
  | cons y t ih =>
      intro g k
      simp only [List.foldl_cons]
      rcases ih (alistSet g (f y) 0) k with h | h
      · by_cases hk : f y = k
        · right; rw [h, ← hk]; exact gaugeVal_set_self _ _ _
        · left; rw [h]; exact gaugeVal_set_ne _ _ _ _ hk
      · right; exact h

theorem foldl_zeroSet_mem {α γ : Type} [DecidableEq α]
    (L : List γ) (f : γ → α) :
    ∀ (g : List (α × Int)) (k : α), (∃ x ∈ L, f x = k) →
    gaugeVal (L.foldl (fun gg x => alistSet gg (f x) 0) g) k = 0 := by
  induction L with
  | nil => intro g k h; simp at h
  | cons y t ih =>
      intro g k h
      simp only [List.foldl_cons]
      by_cases hy : f y = k
      · rcases foldl_zeroSet_cases t f (alistSet g (f y) 0) k with hc | hc
        · rw [hc, ← hy]; exact gaugeVal_set_self _ _ _
        · exact hc
      · rcases h with ⟨x, hx, hfx⟩
        rcases List.mem_cons.1 hx with he | ht
        · subst he; exact absurd hfx hy
        · exact ih _ k ⟨x, ht, hfx⟩

theorem foldl_condZero_cases {α γ : Type} [DecidableEq α]
    (L : List γ) (p : γ → Bool) (f : γ → α) :
    ∀ (g : List (α × Int)) (k : α),
    gaugeVal (L.foldl (fun gg x => if p x then gg else alistSet gg (f x) 0) g) k
      = gaugeVal g k ∨
    gaugeVal (L.foldl (fun gg x => if p x then gg else alistSet gg (f x) 0) g) k
      = 0 := by
  induction L with
  | nil => intro g k; left; rfl
  | cons y t ih =>
      intro g k
      simp only [List.foldl_cons]
      by_cases hp : p y = true
      · rw [if_pos hp]
        exact ih g k
      · rw [if_neg hp]
        rcases ih (alistSet g (f y) 0) k with h | h
        · by_cases hk : f y = k
          · right; rw [h, ← hk]; exact gaugeVal_set_self _ _ _
          · left; rw [h]; exact gaugeVal_set_ne _ _ _ _ hk
        · right; exact h

theorem foldl_condZero_sets {α γ : Type} [DecidableEq α]
    (L : List γ) (p : γ → Bool) (f : γ → α) :
    ∀ (g : List (α × Int)) (y : γ), y ∈ L → p y = false →
    gaugeVal (L.foldl (fun gg x => if p x then gg else alistSet gg (f x) 0) g) (f y)
      = 0 := by
  induction L with
  | nil => intro g y hy _; simp at hy
  | cons z t ih =>
      intro g y hy hpy
      simp only [List.foldl_cons]
      rcases List.mem_cons.1 hy with he | ht
      · subst he
        rw [if_neg (by simp [hpy])]
        rcases foldl_condZero_cases t p f (alistSet g (f y) 0) (f y) with h | h
        · rw [h]; exact gaugeVal_set_self _ _ _
        · exact h
      · by_cases hp : p z = true
        · rw [if_pos hp]; exact ih g y ht hpy
        · rw [if_neg hp]; exact ih _ y ht hpy

theorem foldl_condZero_other {α γ : Type} [DecidableEq α]
    (L : List γ) (p : γ → Bool) (f : γ → α) :
    ∀ (g : List (α × Int)) (k : α), (∀ x ∈ L, p x = false → f x ≠ k) →
    gaugeVal (L.foldl (fun gg x => if p x then gg else alistSet gg (f x) 0) g) k
      = gaugeVal g k := by
  induction L with
  | nil => intro g k _; rfl
  | cons y t ih =>
      intro g k h
      simp only [List.foldl_cons]
      by_cases hp : p y = true
      · rw [if_pos hp]
        exact ih g k (fun x hx => h x (List.mem_cons_of_mem _ hx))
      · rw [if_neg hp]
        have hpf : p y = false := by simpa using hp
        rw [ih (alistSet g (f y) 0) k (fun x hx => h x (List.mem_cons_of_mem _ hx))]
        exact gaugeVal_set_ne _ _ _ _ (h y (List.mem_cons_self _ _) hpf)

theorem keys_alistSet_some {α β : Type} [DecidableEq α]
    (l : List (α × β)) (k : α) (v : β) (h : (alistGet l k).isSome = true) :
    (alistSet l k v).map Prod.fst = l.map Prod.fst := by
  induction l with
  | nil => simp [alistGet] at h
  | cons q t ih =>
      obtain ⟨k1, v1⟩ := q
      by_cases hk : k1 = k
      · subst hk; simp [alistSet]
      · simp only [alistGet, if_neg hk] at h
        simp [alistSet, hk, ih h]

theorem keys_alistSet_none {α β : Type} [DecidableEq α]
    (l : List (α × β)) (k : α) (v : β) (h : alistGet l k = none) :
    (alistSet l k v).map Prod.fst = l.map Prod.fst ++ [k] := by
  induction l with
  | nil => simp [alistSet]
  | cons q t ih =>
      obtain ⟨k1, v1⟩ := q
      by_cases hk : k1 = k
      · subst hk; simp [alistGet] at h
      · simp only [alistGet, if_neg hk] at h
        simp [alistSet, hk, ih h]

theorem not_mem_keys_of_alistGet_none {α β : Type} [DecidableEq α]
    (l : List (α × β)) (k : α) (h : alistGet l k = none) :
    k ∉ l.map Prod.fst := by
  intro hmem
  rcases List.mem_map.1 hmem with ⟨p, hp, hfst⟩
  obtain ⟨k1, v1⟩ := p
  dsimp only at hfst
  subst hfst
  exact (alistGet_eq_none_iff l k1).1 h v1 hp

theorem countTasks_keys_nodup_aux :
    ∀ (ps : List (Option String)) (acc : List (String × Nat)),
    ((acc.map Prod.fst).Nodup) →
    (((ps.foldl (fun acc2 p =>
        match p with
        | none => acc2
        | some n => bump acc2 n) acc).map Prod.fst).Nodup) := by
  intro ps
  induction ps with
  | nil => intro acc h; exact h
  | cons p t ih =>
      intro acc h
      simp only [List.foldl_cons]
      cases p with
      | none => exact ih acc h
      | some n =>
          refine ih (bump acc n) ?_
          unfold bump
          cases hg : alistGet acc n with
          | none =>
              rw [keys_alistSet_none acc n _ hg, List.nodup_append]
              refine ⟨h, List.nodup_singleton n, ?_⟩
              rw [List.disjoint_singleton]
              exact not_mem_keys_of_alistGet_none acc n hg
          | some c =>
              rw [keys_alistSet_some acc n _ (by simp [hg])]
              exact h

theorem countTasks_keys_nodup (ps : List (Option String)) :
    (((countTasks ps).map Prod.fst).Nodup) := by
  unfold countTasks
  exact countTasks_keys_nodup_aux ps [] (by simp)

theorem countFold_val (q : String) :
    ∀ (counts : List (String × Nat)) (qt : List ((String × String) × Int))
      (n : String) (c : Nat),
    ((counts.map Prod.fst).Nodup) → alistGet counts n = some c →
    gaugeVal (counts.foldl
        (fun gg kv => alistSet gg (q, kv.1) ((kv.2 : Nat) : Int)) qt) (q, n)
      = (c : Int) := by
  intro counts
  induction counts with
  | nil => intro qt n c _ h; simp [alistGet] at h
  | cons kv t ih =>
      intro qt n c hnd hget
      obtain ⟨k0, c0⟩ := kv
      rw [List.map_cons, List.nodup_cons] at hnd
      simp only [List.foldl_cons]
      by_cases hk : k0 = n
      · subst hk
        rw [show alistGet ((k0, c0) :: t) k0 = some c0 from by
          simp [alistGet]] at hget
        injection hget with hget
        subst hget
        have hne : ∀ x ∈ t, (fun kv : String × Nat => (q, kv.1)) x ≠ (q, k0) := by
          intro x hx he
          have hx1 : x.1 = k0 := (congrArg Prod.snd he)
          exact hnd.1 (hx1 ▸ List.mem_map.2 ⟨x, hx, rfl⟩)
        exact (foldl_alistSet_untouched t (fun kv => (q, kv.1))
            (fun kv => ((kv.2 : Nat) : Int))
            (alistSet qt (q, k0) ((c0 : Nat) : Int)) (q, k0) hne).trans
          (gaugeVal_set_self _ _ _)
      · simp only [alistGet, if_neg hk] at hget
        exact ih (alistSet qt (q, k0) ((c0 : Nat) : Int)) n c hnd.2 hget

/-! ### Shape lemmas for the event-processing pipeline -/

theorem collect_unready_store (st : MonitorState) (m : Metrics) :
    (_collect_unready_tasks st m).1.store = st.store := rfl

theorem collect_unready_known (st : MonitorState) (m : Metrics) :
    (_collect_unready_tasks st m).1.known_states
      = insertNew st.known_states (st.store.entries.map (fun p => p.2.state)) := rfl

theorem collect_unready_tasks_eq (st : MonitorState) (m : Metrics) :
    (_collect_unready_tasks st m).2.tasks
      = (insertNew st.known_states (st.store.entries.map (fun p => p.2.state))).foldl
          (fun g s => alistSet g s
            ((countEq (st.store.entries.map (fun p => p.2.state)) s : Nat) : Int))
          m.tasks := rfl

theorem collect_unready_latency (st : MonitorState) (m : Metrics) :
    (_collect_unready_tasks st m).2.latency = m.latency := rfl

theorem collect_unready_runtime (st : MonitorState) (m : Metrics) :
    (_collect_unready_tasks st m).2.runtime = m.runtime := rfl

theorem observe_latency_fields (st : MonitorState) (m : Metrics) (evt : Event) :
    (_observe_latency st m evt).tasks = m.tasks ∧
    (_observe_latency st m evt).tasks_name = m.tasks_name ∧
    (_observe_latency st m evt).runtime = m.runtime := by
  unfold _observe_latency
  cases hu : evt.uuid with
  | none => exact ⟨rfl, rfl, rfl⟩
  | some u =>
      dsimp only
      cases hg : alistGet st.store.entries u with
      | none => exact ⟨rfl, rfl, rfl⟩
      | some prev =>
          dsimp only
          by_cases hs : prev.state = CeleryState.RECEIVED
          · rw [if_pos hs]; exact ⟨rfl, rfl, rfl⟩
          · rw [if_neg hs]; exact ⟨rfl, rfl, rfl⟩

theorem observe_runtime_ok_fields (st : MonitorState) (m : Metrics) (evt : Event)
    (m2 : Metrics) (h : _observe_runtime st m evt = Except.ok m2) :
    m2.tasks = m.tasks ∧ m2.tasks_name = m.tasks_name ∧ m2.latency = m.latency := by
  unfold _observe_runtime at h
  cases hu : evt.uuid with
  | none =>
      rw [hu] at h
      injection h with h
      subst h
      exact ⟨rfl, rfl, rfl⟩
  | some u =>
      rw [hu] at h
      dsimp only at h
      cases hg : alistGet st.store.entries u with
      | none =>
          rw [hg] at h
          injection h with h
          subst h
          exact ⟨rfl, rfl, rfl⟩
      | some prev =>
          rw [hg] at h
          dsimp only at h
          cases hr : evt.runtime with
          | none => rw [hr] at h; simp at h
          | some r =>
              rw [hr] at h
              injection h with h
              subst h
              exact ⟨rfl, rfl, rfl⟩

theorem incr_ready_facts (st : MonitorState) (m : Metrics) (evt : Event)
    (state : CeleryState) :
    (_incr_ready_task st m evt state).2.tasks = gaugeInc m.tasks state ∧
    (_incr_ready_task st m evt state).1.known_states = st.known_states ∧
    (_incr_ready_task st m evt state).1.store.capacity = st.store.capacity ∧
    (_incr_ready_task st m evt state).1.store.entries.length
      ≤ st.store.entries.length ∧
    (∀ p ∈ (_incr_ready_task st m evt state).1.store.entries,
       p ∈ st.store.entries) ∧
    (_incr_ready_task st m evt state).2.latency = m.latency ∧
    (_incr_ready_task st m evt state).2.runtime = m.runtime := by
  unfold _incr_ready_task TaskStore.pop
  cases hu : evt.uuid with
  | none => exact ⟨rfl, rfl, rfl, Nat.le_refl _, fun p hp => hp, rfl, rfl⟩
  | some u =>
      dsimp only
      cases hg : alistGet st.store.entries u with
      | none => exact ⟨rfl, rfl, rfl, Nat.le_refl _, fun p hp => hp, rfl, rfl⟩
      | some r =>
          dsimp only
          refine ⟨rfl, rfl, rfl, ?_, ?_, rfl, rfl⟩
          · have := alistRemove_length st.store.entries u r hg
            omega
          · intro p hp
            exact mem_of_mem_alistRemove _ _ _ hp

theorem mem_upsert (s : TaskStore) (id : String) (rec : TaskRecord) :
    ∀ p ∈ (s.upsert id rec).entries, p ∈ s.entries ∨ p = (id, rec) := by
  unfold TaskStore.upsert
  cases hg : alistGet s.entries id with
  | some r =>
      intro p hp
      rcases List.mem_append.1 hp with h | h
      · exact Or.inl (mem_of_mem_alistRemove _ _ _ h)
      · right; simpa using h
  | none =>
      intro p hp
      rcases List.mem_append.1 hp with h | h
      · by_cases hc : s.capacity ≤ s.entries.length
        · rw [if_pos hc] at h
          exact Or.inl (List.mem_of_mem_drop h)
        · rw [if_neg hc] at h
          exact Or.inl h
      · right; simpa using h

theorem upsert_capacity (s : TaskStore) (id : String) (rec : TaskRecord) :
    (s.upsert id rec).capacity = s.capacity := by
  unfold TaskStore.upsert
  cases alistGet s.entries id <;> rfl

theorem upsert_length (s : TaskStore) (id : String) (rec : TaskRecord)
    (hcap : 1 ≤ s.capacity) (hlen : s.entries.length ≤ s.capacity) :
    (s.upsert id rec).entries.length ≤ s.capacity := by
  unfold TaskStore.upsert
  cases hg : alistGet s.entries id with
  | some r =>
      dsimp only
      rw [List.length_append]
      have := alistRemove_length s.entries id r hg
      simp only [List.length_singleton]
      omega
  | none =>
      dsimp only
      by_cases hc : s.capacity ≤ s.entries.length
      · rw [if_pos hc, List.length_append, List.length_drop]
        simp only [List.length_singleton]
        omega
      · rw [if_neg hc, List.length_append]
        simp only [List.length_singleton]
        omega

theorem State_event_ok_shape (s : TaskStore) (evt : Event) (state : CeleryState)
    (store2 : TaskStore) (h : State_event s evt state = Except.ok store2) :
    ∃ u rec, evt.uuid = some u ∧ TaskRecord.state rec = state ∧
      store2 = s.upsert u rec := by
  unfold State_event at h
  cases hu : evt.uuid with
  | none => rw [hu] at h; simp at h
  | some u =>
      rw [hu] at h
      injection h with h
      exact ⟨u, _, rfl, rfl, h.symm⟩

theorem collect_tasks_ok_shape (st : MonitorState) (m : Metrics) (evt : Event)
    (state : CeleryState) (st2 : MonitorState) (m2 : Metrics)
    (h : _collect_tasks st m evt state = Except.ok (st2, m2)) :
    (state ∈ READY_STATES ∧
       (st2, m2) = _collect_unready_tasks (_incr_ready_task st m evt state).1
         (_incr_ready_task st m evt state).2) ∨
    (state ∉ READY_STATES ∧ ∃ store2,
       State_event st.store evt state = Except.ok store2 ∧
       (st2, m2) = _collect_unready_tasks { st with store := store2 } m) := by
  unfold _collect_tasks at h
  by_cases hr : state ∈ READY_STATES
  · rw [if_pos hr] at h
    left
    injection h with h
    exact ⟨hr, h.symm⟩
  · rw [if_neg hr] at h
    right
    refine ⟨hr, ?_⟩
    cases hse : State_event st.store evt state with
    | error e => rw [hse] at h; simp at h
    | ok store2 =>
        rw [hse] at h
        injection h with h
        exact ⟨store2, rfl, h.symm⟩

theorem process_ok_shape (st : MonitorState) (m : Metrics) (evt : Event)
    (st2 : MonitorState) (m2 : Metrics)
    (h : _process_event st m evt = Except.ok (st2, m2)) :
    (st2 = st ∧ m2 = m ∧ resolveState evt = none) ∨
    (∃ state m1, resolveState evt = some state ∧
       m1.tasks = m.tasks ∧
       _collect_tasks st m1 evt state = Except.ok (st2, m2)) := by
  unfold _process_event at h
  unfold resolveState
  by_cases hg : group_from evt.type = "task"
  · rw [if_pos hg] at h
    rw [if_pos hg]
    cases ht : TASK_EVENT_TO_STATE (strDrop evt.type 5) with
    | none => rw [ht] at h; simp at h
    | some state =>
        rw [ht] at h
        dsimp only at h
        right
        cases hS : (if state = CeleryState.SUCCESS then
            _observe_runtime st
              (if state = CeleryState.STARTED then _observe_latency st m evt
               else m) evt
          else
            Except.ok (if state = CeleryState.STARTED then
                _observe_latency st m evt
              else m)) with
        | error e => rw [hS] at h; simp at h
        | ok mm =>
            rw [hS] at h
            dsimp only at h
            refine ⟨state, mm, rfl, ?_, h⟩
            by_cases hsu : state = CeleryState.SUCCESS
            · subst hsu
              rw [if_pos rfl, if_neg (by decide)] at hS
              exact (observe_runtime_ok_fields st m evt mm hS).1
            · rw [if_neg hsu] at hS
              injection hS with hS
              subst hS
              by_cases hst : state = CeleryState.STARTED
              · rw [if_pos hst]
                exact (observe_latency_fields st m evt).1
              · rw [if_neg hst]
  · rw [if_neg hg] at h
    rw [if_neg hg]
    left
    injection h with h
    exact ⟨(congrArg Prod.fst h).symm, (congrArg Prod.snd h).symm, rfl⟩

/-! ### Monitor-state invariants -/

theorem collect_unready_untouched_ready (st : MonitorState) (m : Metrics)
    (s : CeleryState)
    (hks : ∀ x ∈ st.known_states, x ∉ READY_STATES)
    (hst : unreadyEntries st.store.entries)
    (hs : s ∈ READY_STATES) :
    gaugeVal (_collect_unready_tasks st m).2.tasks s = gaugeVal m.tasks s := by
  rw [collect_unready_tasks_eq]
  refine foldl_alistSet_untouched _ (fun x => x)
      (fun x => ((countEq (st.store.entries.map (fun p => p.2.state)) x : Nat) : Int))
      m.tasks s ?_
  intro x hx he
  have he2 : x = s := he
  rcases (mem_insertNew_iff _ _ _).1 hx with hk | hm
  · exact hks x hk (by rw [he2]; exact hs)
  · rcases List.mem_map.1 hm with ⟨p, hp, hps⟩
    exact hst p hp (by rw [hps, he2]; exact hs)

theorem MonInv_init (cap : Nat) : MonInv (initMonitor cap) := by
  constructor
  · intro p hp; simp [initMonitor] at hp
  · intro s hs; simp [initMonitor] at hs

theorem process_ok_MonInv (st : MonitorState) (m : Metrics) (evt : Event)
    (st2 : MonitorState) (m2 : Metrics) (hinv : MonInv st)
    (h : _process_event st m evt = Except.ok (st2, m2)) : MonInv st2 := by
  rcases process_ok_shape st m evt st2 m2 h with ⟨hst, _, _⟩ | ⟨state, m1, _, _, hct⟩
  · subst hst; exact hinv
  · rcases collect_tasks_ok_shape st m1 evt state st2 m2 hct with
      ⟨hr, hpair⟩ | ⟨hr, store2, hse, hpair⟩
    · have hst2 : st2 = (_collect_unready_tasks
          (_incr_ready_task st m1 evt state).1
          (_incr_ready_task st m1 evt state).2).1 := congrArg Prod.fst hpair
      obtain ⟨_, hknown, _, _, hsub, _, _⟩ := incr_ready_facts st m1 evt state
      constructor
      · rw [hst2, collect_unready_store]
        intro p hp
        exact hinv.1 p (hsub p hp)
      · rw [hst2, collect_unready_known, hknown]
        intro s hsin hsready
        rcases (mem_insertNew_iff _ _ _).1 hsin with hk | hm
        · exact hinv.2 s hk hsready
        · rcases List.mem_map.1 hm with ⟨p, hp, hps⟩
          exact hinv.1 p (hsub p hp) (by rw [hps]; exact hsready)
    · have hst2 : st2 = (_collect_unready_tasks
          { st with store := store2 } m1).1 := congrArg Prod.fst hpair
      obtain ⟨u, rec, hu, hrecstate, hstore2⟩ :=
        State_event_ok_shape st.store evt state store2 hse
      have hmem : ∀ p ∈ store2.entries, p ∈ st.store.entries ∨ p = (u, rec) := by
        rw [hstore2]; exact mem_upsert st.store u rec
      have hunready2 : unreadyEntries store2.entries := by
        intro p hp hready
        rcases hmem p hp with hold | hnewp
        · exact hinv.1 p hold hready
        · subst hnewp
          apply hr
          rw [← hrecstate]
          exact hready
      constructor
      · rw [hst2, collect_unready_store]
        exact hunready2
      · rw [hst2, collect_unready_known]
        intro s hsin hsready
        rcases (mem_insertNew_iff _ _ _).1 hsin with hk | hm
        · exact hinv.2 s hk hsready
        · rcases List.mem_map.1 hm with ⟨p, hp, hps⟩
          exact hunready2 p hp (by rw [hps]; exact hsready)

theorem process_ok_store (st : MonitorState) (m : Metrics) (evt : Event)
    (st2 : MonitorState) (m2 : Metrics)
    (h : _process_event st m evt = Except.ok (st2, m2)) :
    st2.store.capacity = st.store.capacity ∧
    (1 ≤ st.store.capacity → st.store.entries.length ≤ st.store.capacity →
       st2.store.entries.length ≤ st.store.capacity) := by
  rcases process_ok_shape st m evt st2 m2 h with ⟨hst, _, _⟩ | ⟨state, m1, _, _, hct⟩
  · subst hst; exact ⟨rfl, fun _ hl => hl⟩
  · rcases collect_tasks_ok_shape st m1 evt state st2 m2 hct with
      ⟨_, hpair⟩ | ⟨_, store2, hse, hpair⟩
    · have hst2 : st2 = (_collect_unready_tasks
          (_incr_ready_task st m1 evt state).1
          (_incr_ready_task st m1 evt state).2).1 := congrArg Prod.fst hpair
      obtain ⟨_, _, hcap, hlen, _, _, _⟩ := incr_ready_facts st m1 evt state
      rw [hst2, collect_unready_store]
      exact ⟨hcap, fun _ hl => le_trans hlen hl⟩
    · have hst2 : st2 = (_collect_unready_tasks
          { st with store := store2 } m1).1 := congrArg Prod.fst hpair
      obtain ⟨u, rec, hu, _, hstore2⟩ :=
        State_event_ok_shape st.store evt state store2 hse
      rw [hst2, collect_unready_store, hstore2]
      exact ⟨upsert_capacity _ _ _, fun hc hl => upsert_length _ _ _ hc hl⟩

theorem processEvents_store_bound :
    ∀ (evts : List Event) (st : MonitorState) (m : Metrics),
    1 ≤ st.store.capacity → st.store.entries.length ≤ st.store.capacity →
    (processEvents st m evts).1.store.capacity = st.store.capacity ∧
    (processEvents st m evts).1.store.entries.length ≤ st.store.capacity := by
  intro evts
  induction evts with
  | nil => intro st m _ hl; exact ⟨rfl, hl⟩
  | cons e t ih =>
      intro st m hc hl
      simp only [processEvents]
      cases hpe : _process_event st m e with
      | error u => exact ih st m hc hl
      | ok p =>
          obtain ⟨st2, m2⟩ := p
          obtain ⟨hcap, hlen⟩ := process_ok_store st m e st2 m2 hpe
          have h2 := ih st2 m2 (by rw [hcap]; exact hc) (by rw [hcap]; exact hlen hc hl)
          rw [hcap] at h2
          exact h2

theorem upsert_evict (s : TaskStore) (id : String) (rec : TaskRecord)
    (hcap : 1 ≤ s.capacity) (hlen : s.entries.length = s.capacity)
    (hnew : alistGet s.entries id = none) :
    (s.upsert id rec).entries = s.entries.drop 1 ++ [(id, rec)] ∧
    (s.upsert id rec).entries.length = s.capacity ∧
    alistGet (s.upsert id rec).entries id = some rec := by
  unfold TaskStore.upsert
  rw [hnew]
  dsimp only
  have hc : s.capacity ≤ s.entries.length := by omega
  rw [if_pos hc]
  refine ⟨rfl, ?_, ?_⟩
  · rw [List.length_append, List.length_drop]
    simp only [List.length_singleton]
    omega
  · exact alistGet_append_single _ _ _ (alistGet_drop_one_none _ _ hnew)

/-! ### Broker queue monitor lemmas -/

theorem mem_keys_of_alistGet_some {α β : Type} [DecidableEq α]
    (l : List (α × β)) (k : α) (v : β) (h : alistGet l k = some v) :
    k ∈ l.map Prod.fst := by
  by_contra hn
  have h0 : alistGet l k = none :=
    (alistGet_eq_none_iff l k).2
      (fun v2 hv2 => hn (List.mem_map.2 ⟨(k, v2), hv2, rfl⟩))
  rw [h0] at h
  exact Option.noConfusion h

theorem alistGet_isSome_iff_mem_keys {α β : Type} [DecidableEq α]
    (l : List (α × β)) (k : α) :
    (alistGet l k).isSome = true ↔ k ∈ l.map Prod.fst := by
  constructor
  · intro hs
    cases hg : alistGet l k with
    | none => rw [hg] at hs; simp at hs
    | some v => exact mem_keys_of_alistGet_some l k v hg
  · intro hm
    cases hg : alistGet l k with
    | some v => rfl
    | none => exact absurd hm (not_mem_keys_of_alistGet_none l k hg)

theorem collect_queue_tasks_gauge (b : Broker) (g : BrokerGauges) (q : String) :
    (_collect_queue_tasks b g q).1.2
      = { g with queue_tasks := ((alistGet b.seen q).getD []).foldl (fun gg t => if (alistGet (countTasks ((alistGet b.items q).getD [])) t).isSome then gg else alistSet gg (q, t) 0) ((countTasks ((alistGet b.items q).getD [])).foldl (fun gg kv => alistSet gg (q, kv.1) ((kv.2 : Nat) : Int)) g.queue_tasks) } := by
  unfold _collect_queue_tasks _zero_not_exist_tasks
  dsimp only
  by_cases h : (countTasks ((alistGet b.items q).getD [])).isEmpty = true
  · rw [if_pos h]
  · rw [if_neg h]

theorem collect_queue_tasks_seen (b : Broker) (g : BrokerGauges) (q : String) :
    (_collect_queue_tasks b g q).1.1.seen
      = (if (countTasks ((alistGet b.items q).getD [])).isEmpty = true then b.seen
         else alistSet b.seen q
            (insertNew ((alistGet b.seen q).getD [])
              ((countTasks ((alistGet b.items q).getD [])).map Prod.fst))) := by
  unfold _collect_queue_tasks _zero_not_exist_tasks
  dsimp only
  by_cases h : (countTasks ((alistGet b.items q).getD [])).isEmpty = true
  · rw [if_pos h, if_pos h]
  · rw [if_neg h, if_neg h]

theorem collect_queue_tasks_err (b : Broker) (g : BrokerGauges) (q : String) :
    (_collect_queue_tasks b g q).2
      = (if (countTasks ((alistGet b.items q).getD [])).isEmpty = true
         then some () else none) := by
  unfold _collect_queue_tasks _zero_not_exist_tasks
  dsimp only
  by_cases h : (countTasks ((alistGet b.items q).getD [])).isEmpty = true
  · rw [if_pos h, if_pos h]
  · rw [if_neg h, if_neg h]

theorem collect_queue_tasks_broker_err (b : Broker) (g : BrokerGauges) (q : String)
    (h : (countTasks ((alistGet b.items q).getD [])).isEmpty = true) :
    (_collect_queue_tasks b g q).1.1 = b := by
  unfold _collect_queue_tasks _zero_not_exist_tasks
  dsimp only
  rw [if_pos h]

/-! ### Claims about the broker queue monitor -/

/-- Claim C6: for every queue poll of queue `q`, every tallied task name has
`queue_tasks{q,name}` set to its tallied count; every persisted seen name
absent from the current snapshot has `queue_tasks{q,name}` set to 0; and the
persisted seen-name set becomes the union of itself and the snapshot's
names (it never shrinks). -/
theorem queue_tally_zeroing_C6 (b : Broker) (g : BrokerGauges) (q : String) :
    (∀ n c, alistGet (countTasks ((alistGet b.items q).getD [])) n = some c →
       gaugeVal (_collect_queue_tasks b g q).1.2.queue_tasks (q, n) = (c : Int)) ∧
    (∀ n, n ∈ (alistGet b.seen q).getD [] →
       alistGet (countTasks ((alistGet b.items q).getD [])) n = none →
       gaugeVal (_collect_queue_tasks b g q).1.2.queue_tasks (q, n) = 0) ∧
    (∀ n, n ∈ (alistGet (_collect_queue_tasks b g q).1.1.seen q).getD [] ↔
       (n ∈ (alistGet b.seen q).getD [] ∨
        (alistGet (countTasks ((alistGet b.items q).getD [])) n).isSome = true)) := by
  refine ⟨?_, ?_, ?_⟩
  · intro n c hget
    rw [collect_queue_tasks_gauge]
    dsimp only
    refine (foldl_condZero_other ((alistGet b.seen q).getD [])
        (fun t => (alistGet (countTasks ((alistGet b.items q).getD [])) t).isSome)
        (fun t => (q, t)) _ (q, n) ?_).trans
      (countFold_val q (countTasks ((alistGet b.items q).getD []))
        g.queue_tasks n c (countTasks_keys_nodup _) hget)
    intro t _ hf he
    have ht : t = n := congrArg Prod.snd he
    dsimp only at hf
    rw [ht, hget] at hf
    simp at hf
  · intro n hn hnone
    rw [collect_queue_tasks_gauge]
    dsimp only
    exact foldl_condZero_sets ((alistGet b.seen q).getD [])
      (fun t => (alistGet (countTasks ((alistGet b.items q).getD [])) t).isSome)
      (fun t => (q, t)) _ n hn (by dsimp only; rw [hnone]; rfl)
  · intro n
    rw [collect_queue_tasks_seen]
    by_cases he : (countTasks ((alistGet b.items q).getD [])).isEmpty = true
    · rw [if_pos he]
      have hc : countTasks ((alistGet b.items q).getD []) = [] :=
        List.isEmpty_iff.1 he
      rw [hc]
      simp [alistGet]
    · rw [if_neg he, alistGet_set_self]
      simp only [Option.getD_some]
      rw [mem_insertNew_iff, alistGet_isSome_iff_mem_keys]

/-- Claim C6 witness: the spec's example — previously seen `{a, b}`, the
current snapshot tallies `{a: 4}` — yields `queue_tasks{q,a} = 4` and
`queue_tasks{q,b} = 0`. -/
theorem queue_tally_zeroing_C6_w :
    gaugeVal (_collect_queue_tasks
        { queues := ["q"],
          items := [("q", [some "a", some "a", some "a", some "a"])],
          seen := [("q", ["a", "b"])] }
        { queue_lengths := [], queue_tasks := [] } "q").1.2.queue_tasks
      ("q", "a") = 4 ∧
    gaugeVal (_collect_queue_tasks
        { queues := ["q"],
          items := [("q", [some "a", some "a", some "a", some "a"])],
          seen := [("q", ["a", "b"])] }
        { queue_lengths := [], queue_tasks := [] } "q").1.2.queue_tasks
      ("q", "b") = 0 :=
  ⟨(queue_tally_zeroing_C6 _ _ "q").1 "a" 4 (by decide),
   (queue_tally_zeroing_C6 _ _ "q").2.1 "b" (by decide) (by decide)⟩

/-- Claim C10: a poll of a non-builtin queue whose snapshot has zero
decodable task names runs the zeroing pass's `sadd` with no members, which
raises instead of completing the poll as a no-op (the broker-side seen set
is also left unchanged). -/
theorem empty_snapshot_sadd_raises_C10 (b : Broker) (g : BrokerGauges)
    (q : String) (h : countTasks ((alistGet b.items q).getD []) = []) :
    (_collect_queue_tasks b g q).2 = some () ∧
    (_collect_queue_tasks b g q).1.1 = b := by
  have he : (countTasks ((alistGet b.items q).getD [])).isEmpty = true := by
    rw [h]; rfl
  constructor
  · rw [collect_queue_tasks_err, if_pos he]
  · exact collect_queue_tasks_broker_err b g q he

/-- Claim C10 witness: a queue whose only payload fails to decode raises
from the zeroing pass. -/
theorem empty_snapshot_sadd_raises_C10_w :
    (_collect_queue_tasks
        { queues := ["q"], items := [("q", [none])], seen := [("q", ["old"])] }
        { queue_lengths := [], queue_tasks := [] } "q").2 = some () ∧
    (_collect_queue_tasks
        { queues := ["q"], items := [("q", [none])], seen := [("q", ["old"])] }
        { queue_lengths := [], queue_tasks := [] } "q").1.1
      = { queues := ["q"], items := [("q", [none])], seen := [("q", ["old"])] } :=
  empty_snapshot_sadd_raises_C10 _ _ "q" (by decide)

/-- Claim C7 counterexample: queues `[q1, q2]` where `q1`'s snapshot is
empty (which raises from the zeroing pass's `sadd`) and `q2` holds one task
`a`.  The cycle errors and `q2`'s `queue_tasks` series is never created,
although processing `q2` alone would have set it to 1 — so the remaining
queues of the cycle are NOT still processed, refuting the claim. -/
theorem queue_failure_blocks_rest_C7_cex :
    (collect_metrics
        { queues := ["q1", "q2"], items := [("q2", [some "a"])], seen := [] }
        { queue_lengths := [], queue_tasks := [] }).2 = some () ∧
    (collect_metrics
        { queues := ["q1", "q2"], items := [("q2", [some "a"])], seen := [] }
        { queue_lengths := [], queue_tasks := [] }).1.2.queue_tasks = [] ∧
    (_collect_queue_tasks
        { queues := ["q1", "q2"], items := [("q2", [some "a"])], seen := [] }
        { queue_lengths := [], queue_tasks := [] } "q2").1.2.queue_tasks
      = [(("q2", "a"), 1)] := by
  refine ⟨by decide, by decide, by decide⟩

/-- Claim C7 (amended): `collect_metrics` has no per-queue exception
handling, so when an earlier queue's processing raises, the cycle errors and
the remaining queues' `queue_tasks` metrics are left untouched in that
cycle; `run` catches the error (so the loop continues at the next interval)
and the broker state is unchanged. -/
theorem queue_failure_aborts_cycle_C7 (b : Broker) (g : BrokerGauges)
    (q1 q2 : String) (hq : b.queues = [q1, q2])
    (h1 : BUILTIN_QUEUES.contains q1 = false)
    (h2 : BUILTIN_QUEUES.contains q2 = false)
    (hne : q1 ≠ q2)
    (hempty : countTasks ((alistGet b.items q1).getD []) = []) :
    (collect_metrics b g).2 = some () ∧
    (∀ n, gaugeVal (collect_metrics b g).1.2.queue_tasks (q2, n)
       = gaugeVal g.queue_tasks (q2, n)) ∧
    (collect_metrics b g).1.1 = b ∧
    run_once b g = (collect_metrics b g).1 := by
  have hemptyb : (countTasks ((alistGet b.items q1).getD [])).isEmpty = true := by
    rw [hempty]; rfl
  have hfilter : _get_task_queues [q1, q2] = [q1, q2] := by
    unfold _get_task_queues
    rw [List.filter_cons, List.filter_cons, h1, h2]
    simp
  have herr : (_collect_queue_tasks b
      (List.foldl (fun gg q => _collect_queue_lengths b gg q) g [q1, q2]) q1).2
        = some () := by
    rw [collect_queue_tasks_err, if_pos hemptyb]
  have hbb : (_collect_queue_tasks b
      (List.foldl (fun gg q => _collect_queue_lengths b gg q) g [q1, q2]) q1).1.1
        = b :=
    collect_queue_tasks_broker_err b _ q1 hemptyb
  have hgt : ∀ n, gaugeVal (_collect_queue_tasks b
      (List.foldl (fun gg q => _collect_queue_lengths b gg q) g [q1, q2])
      q1).1.2.queue_tasks (q2, n) = gaugeVal g.queue_tasks (q2, n) := by
    intro n
    rw [collect_queue_tasks_gauge]
    dsimp only
    rw [hempty]
    dsimp only [List.foldl_nil]
    refine foldl_condZero_other ((alistGet b.seen q1).getD [])
        (fun t => (alistGet ([] : List (String × Nat)) t).isSome)
        (fun t => (q1, t)) _ (q2, n) ?_
    intro t _ _ he
    exact hne (congrArg Prod.fst he)
  rcases hres : _collect_queue_tasks b
      (List.foldl (fun gg q => _collect_queue_lengths b gg q) g [q1, q2]) q1
    with ⟨⟨b2, g2⟩, err⟩
  rw [hres] at herr hbb hgt
  dsimp only at herr hbb hgt
  subst herr
  have hcm : collect_metrics b g = ((b2, g2), some ()) := by
    unfold collect_metrics
    rw [hq, hfilter]
    unfold queueLoop
    rw [hres]
  refine ⟨by rw [hcm], ?_, by rw [hcm]; exact hbb, rfl⟩
  intro n
  rw [hcm]
  exact hgt n

/-- Claim C7 witness: a two-queue broker where the first queue's snapshot
is empty; the cycle errors and the second queue's series stays at its old
value. -/
theorem queue_failure_aborts_cycle_C7_w :
    (collect_metrics
        { queues := ["qa", "qb"], items := [("qb", [some "x"])], seen := [] }
        { queue_lengths := [], queue_tasks := [] }).2 = some () ∧
    gaugeVal (collect_metrics
        { queues := ["qa", "qb"], items := [("qb", [some "x"])], seen := [] }
        { queue_lengths := [], queue_tasks := [] }).1.2.queue_tasks ("qb", "x")
      = gaugeVal ({ queue_lengths := [], queue_tasks := [] } :
          BrokerGauges).queue_tasks ("qb", "x") :=
  ⟨(queue_failure_aborts_cycle_C7 _ _ "qa" "qb" rfl (by decide) (by decide)
      (by decide) (by decide)).1,
   (queue_failure_aborts_cycle_C7 _ _ "qa" "qb" rfl (by decide) (by decide)
      (by decide) (by decide)).2.1 "x"⟩

/-! ### Claims about the event processor -/

/-- Claim C2 counterexample: a task event of unknown kind (`task-bogus`) is
not dropped — the `TASK_EVENT_TO_STATE` lookup raises an uncaught `KeyError`
(only `AttributeError` is caught), aborting the capture loop. -/
theorem unknown_kind_raises_C2_cex :
    _process_event (initMonitor 10) emptyMetrics
      { type := "task-bogus", uuid := some "u1", timestamp := 0,
        runtime := none, name := none } = Except.error () := rfl

/-- Claim C2 (amended): a task event whose kind is absent from the
kind-to-state table raises an uncaught `KeyError` that aborts the stream
(the handler only catches `AttributeError`); an event with a missing id is
dropped as a no-op by the guarded derivations — the latency and runtime
observers and the name/removal half of the ready increment catch the
`KeyError` of the id lookup. -/
theorem malformed_event_handling_C2 :
    (∀ (st : MonitorState) (m : Metrics) (evt : Event),
       group_from evt.type = "task" →
       TASK_EVENT_TO_STATE (strDrop evt.type 5) = none →
       _process_event st m evt = Except.error ()) ∧
    (∀ (st : MonitorState) (m : Metrics) (evt : Event),
       evt.uuid = none →
       _observe_latency st m evt = m ∧
       _observe_runtime st m evt = Except.ok m ∧
       (∀ state, (_incr_ready_task st m evt state).1 = st ∧
          (_incr_ready_task st m evt state).2.tasks_name = m.tasks_name)) := by
  constructor
  · intro st m evt hg ht
    unfold _process_event
    rw [if_pos hg, ht]
  · intro st m evt hu
    refine ⟨?_, ?_, ?_⟩
    · unfold _observe_latency
      rw [hu]
    · unfold _observe_runtime
      rw [hu]
    · intro state
      unfold _incr_ready_task
      rw [hu]
      exact ⟨rfl, rfl⟩

/-- Claim C2 (amended) witness: the unknown-kind path errors, the
missing-id path is a no-op for the latency observer. -/
theorem malformed_event_handling_C2_w :
    _process_event (initMonitor 1) emptyMetrics
      { type := "task-unknownkind", uuid := some "x", timestamp := 0,
        runtime := none, name := none } = Except.error () ∧
    _observe_latency (initMonitor 1) emptyMetrics
      { type := "task-started", uuid := none, timestamp := 0,
        runtime := none, name := none } = emptyMetrics :=
  ⟨malformed_event_handling_C2.1 _ _ _ (by decide) (by decide),
   (malformed_event_handling_C2.2 _ _ _ rfl).1⟩

/-- Claim C8: the store never exceeds its capacity under any processed
event sequence, and inserting a new id at capacity evicts exactly the
oldest record while the new record ends up present. -/
theorem store_capacity_eviction_C8 :
    (∀ (cap : Nat) (evts : List Event), 1 ≤ cap →
       (processEvents (initMonitor cap) emptyMetrics
          evts).1.store.entries.length ≤ cap) ∧
    (∀ (s : TaskStore) (id : String) (rec : TaskRecord),
       1 ≤ s.capacity → s.entries.length = s.capacity →
       alistGet s.entries id = none →
       (s.upsert id rec).entries = s.entries.drop 1 ++ [(id, rec)] ∧
       (s.upsert id rec).entries.length = s.capacity ∧
       alistGet (s.upsert id rec).entries id = some rec) := by
  constructor
  · intro cap evts hcap
    exact (processEvents_store_bound evts (initMonitor cap) emptyMetrics hcap
      (by simp [initMonitor])).2
  · intro s id rec h1 h2 h3
    exact upsert_evict s id rec h1 h2 h3

/-- Claim C8 witness: a capacity-1 store stays at one record across two
received events for distinct ids, and a concrete full store evicts its
oldest record on a fresh insert. -/
theorem store_capacity_eviction_C8_w :
    (processEvents (initMonitor 1) emptyMetrics
       [{ type := "task-received", uuid := some "a", timestamp := 0,
          runtime := none, name := some "t1" },
        { type := "task-received", uuid := some "b", timestamp := 1,
          runtime := none, name := some "t2" }]).1.store.entries.length ≤ 1 ∧
    (TaskStore.upsert
        { capacity := 1,
          entries := [("a", { name := some "t1", state := CeleryState.RECEIVED, timestamp := 0 })] }
        "b" { name := some "t2", state := CeleryState.RECEIVED, timestamp := 1 }).entries
      = [("a", { name := some "t1", state := CeleryState.RECEIVED, timestamp := 0 })].drop 1
        ++ [("b", { name := some "t2", state := CeleryState.RECEIVED, timestamp := 1 })] :=
  ⟨store_capacity_eviction_C8.1 1 _ (by decide),
   (store_capacity_eviction_C8.2 _ "b" _ (by decide) (by decide) (by decide)).1⟩

/-- Claim C9: only events resolving to unready states are ever inserted in
the store, so the remembered known-states set holds only unready states and
the level-recomputation pass never overwrites a ready-state counter: the
invariant holds initially, is preserved by event processing, and under it
`_collect_unready_tasks` leaves every ready-state `TASKS` value unchanged. -/
theorem unready_pass_protects_ready_C9 :
    (∀ cap, MonInv (initMonitor cap)) ∧
    (∀ (st : MonitorState) (m : Metrics) (evt : Event) (st2 : MonitorState)
       (m2 : Metrics), MonInv st →
       _process_event st m evt = Except.ok (st2, m2) → MonInv st2) ∧
    (∀ (st : MonitorState) (m : Metrics) (s : CeleryState), MonInv st →
       s ∈ READY_STATES →
       gaugeVal (_collect_unready_tasks st m).2.tasks s = gaugeVal m.tasks s) := by
  refine ⟨MonInv_init, process_ok_MonInv, ?_⟩
  intro st m s hinv hs
  exact collect_unready_untouched_ready st m s hinv.2 hinv.1 hs

/-- Claim C9 witness: a store holding one RECEIVED record with
`SUCCESS` already counted at 5 — the recomputation pass leaves the
`SUCCESS` counter untouched. -/
theorem unready_pass_protects_ready_C9_w :
    MonInv (initMonitor 3) ∧
    gaugeVal (_collect_unready_tasks
        { store := { capacity := 3, entries := [("u", { name := some "t", state := CeleryState.RECEIVED, timestamp := 0 })] },
          known_states := [CeleryState.RECEIVED], known_states_names := [] }
        { tasks := [(CeleryState.SUCCESS, 5)], tasks_name := [], latency := [], runtime := [], workers := 0 }).2.tasks CeleryState.SUCCESS
      = gaugeVal ({ tasks := [(CeleryState.SUCCESS, 5)], tasks_name := [], latency := [], runtime := [], workers := 0 } : Metrics).tasks CeleryState.SUCCESS :=
  ⟨unready_pass_protects_ready_C9.1 3,
   unready_pass_protects_ready_C9.2.2 _ _ CeleryState.SUCCESS (by decide)
     (by decide)⟩

/-- Claim C3 counterexample: after one succeeded event,
`tasks_by_state{SUCCESS} = 1`; the re-baselining `setup_metrics` (run on
every reconnect) then sets it to 0 — the counter decreases, refuting
"non-decreasing over the entire life of the process". -/
theorem ready_counter_reset_C3_cex :
    gaugeVal (processEvents (initMonitor 10) emptyMetrics
        [{ type := "task-succeeded", uuid := some "u", timestamp := 0,
           runtime := some 1, name := none }]).2.tasks CeleryState.SUCCESS = 1 ∧
    gaugeVal (setup_metrics (some [])
        (processEvents (initMonitor 10) emptyMetrics
          [{ type := "task-succeeded", uuid := some "u", timestamp := 0,
             runtime := some 1, name := none }]).2).tasks
        CeleryState.SUCCESS = 0 := by
  exact ⟨by decide, by decide⟩

/-- Claim C3 (amended): for every ready state `s`, `tasks_by_state{s}` is
non-decreasing under event processing — each successfully processed event
leaves it unchanged or, when the event resolves to `s`, increments it by
exactly 1 (given the reachability invariant, the unready recomputation never
touches it) — but reconnect re-baselining (`setup_metrics`) sets it to 0,
so over the whole process life it does decrease at reconnects. -/
theorem ready_counter_monotone_events_C3 (st : MonitorState) (m : Metrics)
    (evt : Event) (st2 : MonitorState) (m2 : Metrics) (s : CeleryState)
    (hinv : MonInv st) (hs : s ∈ READY_STATES)
    (hok : _process_event st m evt = Except.ok (st2, m2)) :
    gaugeVal m.tasks s ≤ gaugeVal m2.tasks s ∧
    (resolveState evt = some s →
       gaugeVal m2.tasks s = gaugeVal m.tasks s + 1) ∧
    (∀ (names : List String) (mm : Metrics),
       gaugeVal (setup_metrics (some names) mm).tasks s = 0) := by
  have hsetup : ∀ (names : List String) (mm : Metrics),
      gaugeVal (setup_metrics (some names) mm).tasks s = 0 := by
    intro names mm
    have hall : s ∈ ALL_STATES :=
      (by decide : ∀ x ∈ READY_STATES, x ∈ ALL_STATES) s hs
    exact foldl_zeroSet_mem ALL_STATES (fun x => x) mm.tasks s ⟨s, hall, rfl⟩
  rcases process_ok_shape st m evt st2 m2 hok with ⟨_, hm, hres⟩ | ⟨state, m1, hres, hm1, hct⟩
  · subst hm
    refine ⟨le_refl _, fun hcon => ?_, hsetup⟩
    rw [hres] at hcon
    exact Option.noConfusion hcon
  · rcases collect_tasks_ok_shape st m1 evt state st2 m2 hct with
      ⟨hr, hpair⟩ | ⟨hr, store2, hse, hpair⟩
    · have hm2 : m2 = (_collect_unready_tasks
          (_incr_ready_task st m1 evt state).1
          (_incr_ready_task st m1 evt state).2).2 := congrArg Prod.snd hpair
      obtain ⟨htasks, hknown, _, _, hsub, _, _⟩ := incr_ready_facts st m1 evt state
      have huntouched : gaugeVal m2.tasks s
          = gaugeVal (_incr_ready_task st m1 evt state).2.tasks s := by
        rw [hm2]
        refine collect_unready_untouched_ready _ _ s ?_ ?_ hs
        · rw [hknown]; exact hinv.2
        · intro p hp; exact hinv.1 p (hsub p hp)
      rw [huntouched, htasks, hm1]
      by_cases hss : state = s
      · subst hss
        rw [gaugeVal_inc_self]
        exact ⟨by omega, fun _ => rfl, hsetup⟩
      · rw [gaugeVal_inc_ne _ _ _ hss]
        refine ⟨le_refl _, fun hcon => ?_, hsetup⟩
        rw [hres] at hcon
        injection hcon with hcon
        exact absurd hcon hss
    · have hm2 : m2 = (_collect_unready_tasks
          { st with store := store2 } m1).2 := congrArg Prod.snd hpair
      obtain ⟨u, rec, hu, hrecstate, hstore2⟩ :=
        State_event_ok_shape st.store evt state store2 hse
      have hunready2 : unreadyEntries store2.entries := by
        intro p hp hready
        rw [hstore2] at hp
        rcases mem_upsert st.store u rec p hp with hold | hnewp
        · exact hinv.1 p hold hready
        · subst hnewp
          apply hr
          rw [← hrecstate]
          exact hready
      have huntouched : gaugeVal m2.tasks s = gaugeVal m1.tasks s := by
        rw [hm2]
        refine collect_unready_untouched_ready _ _ s ?_ ?_ hs
        · exact hinv.2
        · exact hunready2
      rw [huntouched, hm1]
      refine ⟨le_refl _, fun hcon => ?_, hsetup⟩
      rw [hres] at hcon
      injection hcon with hcon
      subst hcon
      exact absurd hs hr

/-- Claim C3 (amended) witness: a succeeded event takes
`tasks_by_state{SUCCESS}` from 0 to 1. -/
theorem ready_counter_monotone_events_C3_w :
    gaugeVal emptyMetrics.tasks CeleryState.SUCCESS
      ≤ gaugeVal ({ tasks := [(CeleryState.SUCCESS, 1)], tasks_name := [], latency := [], runtime := [], workers := 0 } : Metrics).tasks CeleryState.SUCCESS ∧
    (resolveState { type := "task-succeeded", uuid := some "u", timestamp := 0, runtime := some 1, name := none } = some CeleryState.SUCCESS →
      gaugeVal ({ tasks := [(CeleryState.SUCCESS, 1)], tasks_name := [], latency := [], runtime := [], workers := 0 } : Metrics).tasks CeleryState.SUCCESS
        = gaugeVal emptyMetrics.tasks CeleryState.SUCCESS + 1) ∧
    (∀ (names : List String) (mm : Metrics),
       gaugeVal (setup_metrics (some names) mm).tasks CeleryState.SUCCESS = 0) :=
  ready_counter_monotone_events_C3 (initMonitor 2) emptyMetrics
    { type := "task-succeeded", uuid := some "u", timestamp := 0, runtime := some 1, name := none }
    (initMonitor 2)
    { tasks := [(CeleryState.SUCCESS, 1)], tasks_name := [], latency := [], runtime := [], workers := 0 }
    CeleryState.SUCCESS (by decide) (by decide) rfl

/-- Claim C4 counterexample: a SUCCESS event for a record whose name is
unknown (`None`).  The code pops the record and calls
`TASKS_NAME.labels(state, name=None).inc()` — a series keyed by the null
name IS incremented (`prometheus_client` stringifies it as the label value
"None"), refuting "no tasks_by_state_and_name series is incremented". -/
theorem unknown_name_series_C4_cex :
    _process_event
        { store := { capacity := 10, entries := [("u1", { name := none, state := CeleryState.STARTED, timestamp := 0 })] },
          known_states := [], known_states_names := [] }
        emptyMetrics
        { type := "task-succeeded", uuid := some "u1", timestamp := 1,
          runtime := some 1, name := none }
      = Except.ok
          ({ store := { capacity := 10, entries := [] },
             known_states := [], known_states_names := [] },
           { tasks := [(CeleryState.SUCCESS, 1)],
             tasks_name := [((CeleryState.SUCCESS, none), 1)],
             latency := [], runtime := [(none, 1)], workers := 0 }) := rfl

/-- Claim C4 (amended): an event resolving to a ready state increments
`tasks_by_state` for that state by 1; when a prior record exists for the id,
the record is removed and `tasks_by_state_and_name` keyed by the record's
name — including the null name, labelled "None", when the name is unknown —
is incremented by 1; when no record exists (or the id is missing, claim C2),
no `tasks_by_state_and_name` series changes. -/
theorem ready_increment_behavior_C4 (st : MonitorState) (m : Metrics)
    (evt : Event) (state : CeleryState) (u : String) (hu : evt.uuid = some u)
    (hnd : (st.store.entries.map Prod.fst).Nodup) :
    gaugeVal (_incr_ready_task st m evt state).2.tasks state
      = gaugeVal m.tasks state + 1 ∧
    (∀ rec, alistGet st.store.entries u = some rec →
       gaugeVal (_incr_ready_task st m evt state).2.tasks_name (state, rec.name)
         = gaugeVal m.tasks_name (state, rec.name) + 1 ∧
       alistGet (_incr_ready_task st m evt state).1.store.entries u = none) ∧
    (alistGet st.store.entries u = none →
       (_incr_ready_task st m evt state).2.tasks_name = m.tasks_name ∧
       (_incr_ready_task st m evt state).1 = st) := by
  unfold _incr_ready_task TaskStore.pop
  rw [hu]
  dsimp only
  cases hg : alistGet st.store.entries u with
  | none =>
      refine ⟨gaugeVal_inc_self m.tasks state, ?_, fun _ => ⟨rfl, rfl⟩⟩
      intro rec hrec
      exact Option.noConfusion hrec
  | some r =>
      dsimp only
      refine ⟨gaugeVal_inc_self m.tasks state, ?_, ?_⟩
      · intro rec hrec
        injection hrec with hrec
        subst hrec
        exact ⟨gaugeVal_inc_self m.tasks_name (state, r.name),
          alistGet_remove_none st.store.entries u hnd⟩
      · intro hnone
        exact Option.noConfusion hnone

/-- Claim C4 (amended) witness: SUCCESS for a record named `n` — the state
counter and the (SUCCESS, n) series both go up by one. -/
theorem ready_increment_behavior_C4_w :
    gaugeVal (_incr_ready_task
        { store := { capacity := 5, entries := [("u", { name := some "n", state := CeleryState.STARTED, timestamp := 0 })] },
          known_states := [], known_states_names := [] }
        emptyMetrics
        { type := "task-succeeded", uuid := some "u", timestamp := 1, runtime := some 1, name := none }
        CeleryState.SUCCESS).2.tasks CeleryState.SUCCESS
      = gaugeVal emptyMetrics.tasks CeleryState.SUCCESS + 1 ∧
    gaugeVal (_incr_ready_task
        { store := { capacity := 5, entries := [("u", { name := some "n", state := CeleryState.STARTED, timestamp := 0 })] },
          known_states := [], known_states_names := [] }
        emptyMetrics
        { type := "task-succeeded", uuid := some "u", timestamp := 1, runtime := some 1, name := none }
        CeleryState.SUCCESS).2.tasks_name (CeleryState.SUCCESS, some "n")
      = gaugeVal emptyMetrics.tasks_name (CeleryState.SUCCESS, some "n") + 1 :=
  ⟨(ready_increment_behavior_C4 _ _ _ CeleryState.SUCCESS "u" rfl (by decide)).1,
   ((ready_increment_behavior_C4 _ _ _ CeleryState.SUCCESS "u" rfl (by decide)).2.1
      { name := some "n", state := CeleryState.STARTED, timestamp := 0 }
      (by decide)).1⟩

theorem collect_tasks_ready_runtime (st : MonitorState) (m : Metrics)
    (evt : Event) (state : CeleryState) (hr : state ∈ READY_STATES) :
    Except.map (fun p : MonitorState × Metrics => p.2.runtime)
        (_collect_tasks st m evt state) = Except.ok m.runtime := by
  unfold _collect_tasks
  rw [if_pos hr]
  dsimp only [Except.map]
  rw [collect_unready_runtime]
  exact congrArg Except.ok (incr_ready_facts st m evt state).2.2.2.2.2.2

theorem collect_tasks_unready_latency (st : MonitorState) (m : Metrics)
    (evt : Event) (state : CeleryState) (hr : state ∉ READY_STATES)
    (u : String) (hu : evt.uuid = some u) :
    ∃ res, _collect_tasks st m evt state = Except.ok res ∧
      res.2.latency = m.latency ∧ res.2.runtime = m.runtime := by
  unfold _collect_tasks
  rw [if_neg hr]
  unfold State_event
  rw [hu]
  dsimp only
  exact ⟨_, rfl, collect_unready_latency _ _, collect_unready_runtime _ _⟩

/-- Claim C1: a STARTED event observes a latency sample equal to the event
timestamp minus the record's last event timestamp exactly when a record
exists for the id and its previously recorded state is exactly RECEIVED;
with any other prior state (e.g. RETRY), or with no record, no sample is
observed.  (`task-started` is the only event kind resolving to STARTED.) -/
theorem latency_only_after_received_C1 (st : MonitorState) (m : Metrics)
    (u : String) (ts : Int) (rt : Option Int) (nm : Option String) :
    Except.map (fun p : MonitorState × Metrics => p.2.latency)
      (_process_event st m { type := "task-started", uuid := some u, timestamp := ts, runtime := rt, name := nm })
      = Except.ok (match alistGet st.store.entries u with
        | some rec =>
            if rec.state = CeleryState.RECEIVED
            then m.latency ++ [ts - rec.timestamp] else m.latency
        | none => m.latency) := by
  have hstep : _process_event st m
      { type := "task-started", uuid := some u, timestamp := ts, runtime := rt, name := nm }
      = _collect_tasks st
          (_observe_latency st m { type := "task-started", uuid := some u, timestamp := ts, runtime := rt, name := nm })
          { type := "task-started", uuid := some u, timestamp := ts, runtime := rt, name := nm }
          CeleryState.STARTED := rfl
  obtain ⟨res, hres, hlat, _⟩ := collect_tasks_unready_latency st
    (_observe_latency st m { type := "task-started", uuid := some u, timestamp := ts, runtime := rt, name := nm })
    { type := "task-started", uuid := some u, timestamp := ts, runtime := rt, name := nm }
    CeleryState.STARTED (by decide) u rfl
  rw [hstep, hres]
  dsimp only [Except.map]
  rw [hlat]
  unfold _observe_latency
  dsimp only
  cases hg : alistGet st.store.entries u with
  | none => rfl
  | some rec =>
      dsimp only
      by_cases hsr : rec.state = CeleryState.RECEIVED
      · simp only [if_pos hsr]
      · simp only [if_neg hsr]

/-- Claim C5: a SUCCESS event with an existing record observes exactly the
runtime value carried in the event itself into the runtime histogram
labelled with the record's name; with no record, no runtime sample is
observed.  (`task-succeeded` is the only event kind resolving to SUCCESS.) -/
theorem runtime_from_event_C5 (st : MonitorState) (m : Metrics) (u : String)
    (ts r : Int) (nm : Option String) :
    Except.map (fun p : MonitorState × Metrics => p.2.runtime)
      (_process_event st m { type := "task-succeeded", uuid := some u, timestamp := ts, runtime := some r, name := nm })
      = Except.ok (match alistGet st.store.entries u with
        | some rec => m.runtime ++ [(rec.name, r)]
        | none => m.runtime) := by
  cases hg : alistGet st.store.entries u with
  | none =>
      have hobs : _observe_runtime st m
          { type := "task-succeeded", uuid := some u, timestamp := ts, runtime := some r, name := nm }
          = Except.ok m := by
        unfold _observe_runtime
        dsimp only
        rw [hg]
      have hstep : _process_event st m
          { type := "task-succeeded", uuid := some u, timestamp := ts, runtime := some r, name := nm }
          = _collect_tasks st m
              { type := "task-succeeded", uuid := some u, timestamp := ts, runtime := some r, name := nm }
              CeleryState.SUCCESS := by
        show (match _observe_runtime st m { type := "task-succeeded", uuid := some u, timestamp := ts, runtime := some r, name := nm } with
              | Except.error e => Except.error e
              | Except.ok m2 => _collect_tasks st m2 { type := "task-succeeded", uuid := some u, timestamp := ts, runtime := some r, name := nm } CeleryState.SUCCESS) = _
        rw [hobs]
      rw [hstep]
      exact collect_tasks_ready_runtime st m _ CeleryState.SUCCESS (by decide)
  | some rec =>
      have hobs : _observe_runtime st m
          { type := "task-succeeded", uuid := some u, timestamp := ts, runtime := some r, name := nm }
          = Except.ok { m with runtime := m.runtime ++ [(rec.name, r)] } := by
        unfold _observe_runtime
        dsimp only
        rw [hg]
      have hstep : _process_event st m
          { type := "task-succeeded", uuid := some u, timestamp := ts, runtime := some r, name := nm }
          = _collect_tasks st { m with runtime := m.runtime ++ [(rec.name, r)] }
              { type := "task-succeeded", uuid := some u, timestamp := ts, runtime := some r, name := nm }
              CeleryState.SUCCESS := by
        show (match _observe_runtime st m { type := "task-succeeded", uuid := some u, timestamp := ts, runtime := some r, name := nm } with
              | Except.error e => Except.error e
              | Except.ok m2 => _collect_tasks st m2 { type := "task-succeeded", uuid := some u, timestamp := ts, runtime := some r, name := nm } CeleryState.SUCCESS) = _
        rw [hobs]
      rw [hstep]
      exact collect_tasks_ready_runtime st
        { m with runtime := m.runtime ++ [(rec.name, r)] } _ CeleryState.SUCCESS
        (by decide)
